import Mathlib

/-!
Shallow embedding of the right-of-way geometry engine of this repository
(src/src/runtime/widget.tsx, geometry section): the offset-based ROW polygon
builder, the per-vertex survey analytics, the DMS formatter and the two
measurement wrappers.  The host SDK capabilities the code calls
(geometryEngine.offset, geodesicLength, geodesicArea) are not part of the
repository; they are modelled from the specification and flagged as such in
their doc comments.  Machine floats are idealised as real numbers; exact
rational coordinates are used where the statements are field-generic.
-/

namespace RowEngine

/-- A polyline as the code receives it from the host SDK: a list of paths,
each path a list of 2D points, plus an opaque spatial-reference token
(widget.tsx uses only paths[0] and passes spatialReference through). -/
structure Polyline (K : Type) where
  paths : List (List (K × K))
  spatialReference : Nat
deriving DecidableEq

/-- A polygon as built by the code: a list of rings plus the spatial
reference copied from the source centerline. -/
structure Polygon (K : Type) where
  rings : List (List (K × K))
  spatialReference : Nat
deriving DecidableEq

variable {K : Type} [LinearOrderedField K]

/-- First path of a polyline; widget.tsx reads polyline.paths[0] and treats a
missing path like an empty one. -/
def path0 (pl : Polyline K) : List (K × K) := pl.paths.headD []

/-- Point of a path at an index (points are only read at in-range indices). -/
def ptAt (path : List (K × K)) (i : Nat) : K × K := path.getD i (0, 0)

/-- Direction vector of segment i of a path (point i+1 minus point i). -/
def segDir (path : List (K × K)) (i : Nat) : K × K :=
  ((ptAt path (i + 1)).1 - (ptAt path i).1, (ptAt path (i + 1)).2 - (ptAt path i).2)

/-- Intersection of the line through A with direction u and the line through
B with direction v; none when the directions are parallel (degenerate miter
join). -/
def lineIntersect (A u B v : K × K) : Option (K × K) :=
  let c := u.1 * v.2 - u.2 * v.1
  if c = 0 then none
  else
    let s := ((B.1 - A.1) * v.2 - (B.2 - A.2) * v.1) / c
    some (A.1 + s * u.1, A.2 + s * u.2)

/-- Point i of a path shifted along the right-hand normal of segment s,
scaled by the width w.  The normal of direction (dx, dy) is (dy, -dx); it is
perpendicular to the segment (the model scales the shift by the segment
length rather than normalising, which leaves every structural property of
the construction unchanged). -/
def offPt (path : List (K × K)) (w : K) (i s : Nat) : K × K :=
  let d := segDir path s
  ((ptAt path i).1 + w * d.2, (ptAt path i).2 + w * (-d.1))

/-- Vertex j of the offset line: endpoints are plain perpendicular offsets,
interior vertices are miter joins (intersection of the two adjacent offset
segment lines). -/
def offsetVertex (path : List (K × K)) (w : K) (j : Nat) : Option (K × K) :=
  if j = 0 then some (offPt path w 0 0)
  else if j = path.length - 1 then some (offPt path w j (j - 1))
  else
    lineIntersect (offPt path w (j - 1) (j - 1)) (segDir path (j - 1))
      (offPt path w j j) (segDir path j)

/-- Collects a list of options, failing if any entry is none. -/
def optList {α : Type} : List (Option α) → Option (List α)
  | [] => some []
  | none :: _ => none
  | some a :: t => (optList t).map (fun l => a :: l)

/-- Modelled from the spec: the host geometry engine's parallel line offset
with miter join (geometryEngine.offset, called by buildRowPolygon; the
engine itself is not repository code).  Each segment is offset perpendicular
to its direction and adjacent offset segments are extended to their
intersection; the construction yields no result on degenerate input: fewer
than two points, a zero-length segment, or a parallel (miter-impossible)
join. -/
def offsetLine (path : List (K × K)) (w : K) : Option (List (K × K)) :=
  if path.length < 2 then none
  else if (List.range (path.length - 1)).any (fun i => decide (segDir path i = (0, 0))) then
    none
  else optList ((List.range path.length).map (offsetVertex path w))

/-- Embeds buildRowPolygon (widget.tsx lines 624-652): offsets the centerline
by +leftWidth and -rightWidth, throws when either offset yields no result,
and otherwise stitches ring = leftPath ++ reverse rightPath ++ [leftPath[0]]. -/
def buildRowPolygon (centerline : Polyline K) (leftWidth rightWidth : K) :
    Except String (Polygon K) :=
  match offsetLine (path0 centerline) leftWidth,
      offsetLine (path0 centerline) (-rightWidth) with
  | some leftPath, some rightPath =>
      Except.ok
        { rings := [leftPath ++ rightPath.reverse ++ [leftPath.headD (0, 0)]],
          spatialReference := centerline.spatialReference }
  | _, _ => Except.error "Failed to create offset lines"

lemma optList_length {α : Type} :
    ∀ {l : List (Option α)} {r : List α}, optList l = some r → r.length = l.length := by
  intro l
  induction l with
  | nil => intro r h; simp [optList] at h; simp [← h]
  | cons a t ih =>
      intro r h
      cases a with
      | none => simp [optList] at h
      | some x =>
          simp only [optList, Option.map_eq_some'] at h
          obtain ⟨l2, hl2, rfl⟩ := h
          simp [ih hl2]

lemma offsetLine_length {path : List (K × K)} {w : K} {l : List (K × K)}
    (h : offsetLine path w = some l) : l.length = path.length := by
  unfold offsetLine at h
  split at h
  · exact absurd h (by simp)
  · split at h
    · exact absurd h (by simp)
    · simpa using optList_length h

lemma offsetLine_two_le {path : List (K × K)} {w : K} {l : List (K × K)}
    (h : offsetLine path w = some l) : 2 ≤ path.length := by
  unfold offsetLine at h
  split at h
  · exact absurd h (by simp)
  · omega

/-- C4: for every centerline and widths for which both offset computations
succeed, buildRowPolygon returns a single-ring polygon whose first and last
points are identical and whose ring has exactly 2n+1 points, n being the
centerline's vertex count.  (Success of the offsets forces n at least 2.) -/
theorem claim4_ring_closure (cl : Polyline K) (lw rw : K) (p : Polygon K)
    (h : buildRowPolygon cl lw rw = Except.ok p) :
    p.rings.length = 1 ∧
    (p.rings.headD []).length = 2 * (path0 cl).length + 1 ∧
    (p.rings.headD []).head? = (p.rings.headD []).getLast? := by
  cases o1 : offsetLine (path0 cl) lw with
  | none => rw [buildRowPolygon, o1] at h; cases h
  | some lp =>
    cases o2 : offsetLine (path0 cl) (-rw) with
    | none => rw [buildRowPolygon, o1, o2] at h; cases h
    | some rp =>
      rw [buildRowPolygon, o1, o2] at h
      simp only [Except.ok.injEq] at h
      subst h
      have hl := offsetLine_length o1
      have hr := offsetLine_length o2
      have h2 := offsetLine_two_le o1
      have hne : lp ≠ [] := by
        intro hnil
        rw [hnil] at hl
        simp at hl
        omega
      obtain ⟨a, lp2, rfl⟩ := List.exists_cons_of_ne_nil hne
      refine ⟨rfl, ?_, ?_⟩
      · simp only [List.headD_cons]
        simp only [List.length_cons] at hl
        simp [List.length_append, List.length_reverse, hr, ← hl]
        ring
      · simp only [List.headD_cons]
        rw [show (a :: lp2) ++ rp.reverse ++ [a] = (a :: (lp2 ++ rp.reverse)) ++ [a] from by
          simp, List.getLast?_concat]
        simp

instance {ε α : Type} [DecidableEq ε] [DecidableEq α] : DecidableEq (Except ε α) := fun x y =>
  match x, y with
  | Except.ok a, Except.ok b =>
      if h : a = b then Decidable.isTrue (by rw [h]) else Decidable.isFalse (by simp [h])
  | Except.error a, Except.error b =>
      if h : a = b then Decidable.isTrue (by rw [h]) else Decidable.isFalse (by simp [h])
  | Except.ok _, Except.error _ => Decidable.isFalse (by simp)
  | Except.error _, Except.ok _ => Decidable.isFalse (by simp)

/-- C4 witness: the concrete right-angle centerline with widths 10 and 10. -/
def rowClEx : Polyline ℚ := ⟨[[(0, 0), (0, 100), (100, 100)]], 5⟩

/-- The polygon buildRowPolygon produces for rowClEx with widths 10 and 10. -/
def rowPEx : Polygon ℚ :=
  ⟨[[(1000, 0), (1000, -900), (100, -900), (100, 1100), (-1000, 1100), (-1000, 0), (1000, 0)]], 5⟩

theorem claim4_ring_closure_witness :
    buildRowPolygon rowClEx 10 10 = Except.ok rowPEx ∧
    rowPEx.rings.length = 1 ∧
    (rowPEx.rings.headD []).length = 2 * (path0 rowClEx).length + 1 ∧
    (rowPEx.rings.headD []).head? = (rowPEx.rings.headD []).getLast? :=
  ⟨by norm_num [buildRowPolygon, path0, rowClEx, rowPEx, offsetLine, offsetVertex, offPt,
      segDir, ptAt, lineIntersect, optList, List.range_succ, Prod.ext_iff],
   claim4_ring_closure rowClEx 10 10 rowPEx (by
    norm_num [buildRowPolygon, path0, rowClEx, rowPEx, offsetLine, offsetVertex, offPt,
      segDir, ptAt, lineIntersect, optList, List.range_succ, Prod.ext_iff])⟩

/-- Cross product of two points viewed as vectors; one term of the shoelace
sum. -/
def vcross (a b : K × K) : K := a.1 * b.2 - b.1 * a.2

/-- Shoelace sum of a ring: twice its signed area. -/
def ringShoelace : List (K × K) → K
  | a :: b :: rest => vcross a b + ringShoelace (b :: rest)
  | _ => 0

/-- Modelled from the spec: the host geodesic-area capability
(geometryEngine.geodesicArea, called by calculateArea; not repository code),
instantiated as the planar shoelace area over the polygon's rings.  The
spec notes the underlying computation is signed by ring winding and that an
implementation must take the absolute value if an unsigned result is
wanted; the signed convention is modelled faithfully. -/
def geodesicArea (p : Polygon K) : K := ((p.rings.map ringShoelace).sum) / 2

/-- Length of a path under a distance capability dist: sum of the distances
of consecutive point pairs. -/
def pathLength (dist : (K × K) → (K × K) → K) : List (K × K) → K
  | a :: b :: rest => dist a b + pathLength dist (b :: rest)
  | _ => 0

/-- Modelled from the spec: the host geodesic-length capability
(geometryEngine.geodesicLength on a polygon; not repository code), summing
the supplied point-to-point distance function over all ring boundaries. -/
def geodesicLengthPoly (dist : (K × K) → (K × K) → K) (p : Polygon K) : K :=
  (p.rings.map (pathLength dist)).sum

/-- Embeds calculateArea (widget.tsx lines 750-752): a direct pass-through
of the geodesic-area capability, with no absolute value taken. -/
def calculateArea (p : Polygon K) : K := geodesicArea p

/-- Embeds calculatePerimeter (widget.tsx lines 757-759): a direct
pass-through of the geodesic-length capability. -/
def calculatePerimeter (dist : (K × K) → (K × K) → K) (p : Polygon K) : K :=
  geodesicLengthPoly dist p

lemma ringShoelace_append_last (x : K × K) :
    ∀ (l : List (K × K)) (h : l ≠ []),
      ringShoelace (l ++ [x]) = ringShoelace l + vcross (l.getLast h) x := by
  intro l
  induction l with
  | nil => intro h; exact absurd rfl h
  | cons a t ih =>
      intro _
      cases t with
      | nil => simp [ringShoelace, vcross]
      | cons b t2 =>
          have hne : b :: t2 ≠ [] := by simp
          have step : ringShoelace ((a :: b :: t2) ++ [x]) =
              vcross a b + ringShoelace ((b :: t2) ++ [x]) := by
            simp [ringShoelace]
          rw [step, ih hne, List.getLast_cons hne]
          have hsh : ringShoelace (a :: b :: t2) =
              vcross a b + ringShoelace (b :: t2) := by simp [ringShoelace]
          rw [hsh]
          ring

lemma ringShoelace_reverse : ∀ (l : List (K × K)),
    ringShoelace l.reverse = -ringShoelace l := by
  intro l
  induction l with
  | nil => simp [ringShoelace]
  | cons a t ih =>
      cases t with
      | nil => simp [ringShoelace]
      | cons b t2 =>
          have hne : (b :: t2).reverse ≠ [] := by simp
          have hrev : (a :: b :: t2).reverse = (b :: t2).reverse ++ [a] := by simp
          rw [hrev, ringShoelace_append_last a _ hne, ih]
          have hlast : ((b :: t2).reverse).getLast hne = b := by
            rw [List.getLast_reverse]
            rfl
          rw [hlast]
          have hsh : ringShoelace (a :: b :: t2) =
              vcross a b + ringShoelace (b :: t2) := by simp [ringShoelace]
          rw [hsh]
          simp [vcross]
          try ring

lemma pathLength_nonneg (dist : (K × K) → (K × K) → K)
    (hd : ∀ a b, 0 ≤ dist a b) : ∀ l, 0 ≤ pathLength dist l := by
  intro l
  induction l with
  | nil => simp [pathLength]
  | cons a t ih =>
      cases t with
      | nil => simp [pathLength]
      | cons b t2 =>
          have hstep : pathLength dist (a :: b :: t2) =
              dist a b + pathLength dist (b :: t2) := by simp [pathLength]
          rw [hstep]
          exact add_nonneg (hd a b) ih

/-- C2 counterexample: calculateArea applied to the clockwise unit square is
negative, so calculateArea does not return a nonnegative value for every
polygon and its sign does depend on the ring winding direction. -/
theorem claim2_cex :
    calculateArea (K := ℚ) ⟨[[(0, 0), (0, 1), (1, 1), (1, 0), (0, 0)]], 0⟩ < 0 := by
  norm_num [calculateArea, geodesicArea, ringShoelace, vcross]

/-- C2 amended: calculatePerimeter is nonnegative whenever the underlying
distance capability is, but calculateArea passes the signed engine area
through unchanged, so reversing a ring's winding direction flips the sign
of the reported area. -/
theorem claim2_perimeter_nonneg_area_signed
    (dist : (K × K) → (K × K) → K) (hd : ∀ a b, 0 ≤ dist a b)
    (p : Polygon K) (r : List (K × K)) (s : Nat) :
    0 ≤ calculatePerimeter dist p ∧
    calculateArea ⟨[r.reverse], s⟩ = -calculateArea ⟨[r], s⟩ := by
  constructor
  · unfold calculatePerimeter geodesicLengthPoly
    apply List.sum_nonneg
    intro x hx
    obtain ⟨ring, _, rfl⟩ := List.mem_map.mp hx
    exact pathLength_nonneg dist hd ring
  · unfold calculateArea geodesicArea
    simp [ringShoelace_reverse, neg_div]

theorem claim2_perimeter_nonneg_area_signed_witness :
    (∀ a b : ℚ × ℚ, 0 ≤ |b.1 - a.1| + |b.2 - a.2|) ∧
    (0 ≤ calculatePerimeter (fun a b : ℚ × ℚ => |b.1 - a.1| + |b.2 - a.2|)
        ⟨[[(0, 0), (0, 1), (1, 1), (1, 0), (0, 0)]], 0⟩ ∧
      calculateArea (K := ℚ)
          ⟨[List.reverse [(0, 0), (0, 1), (1, 1), (1, 0), (0, 0)]], 0⟩ =
        -calculateArea (K := ℚ) ⟨[[(0, 0), (0, 1), (1, 1), (1, 0), (0, 0)]], 0⟩) :=
  ⟨fun a b => add_nonneg (abs_nonneg _) (abs_nonneg _),
   claim2_perimeter_nonneg_area_signed (fun a b => |b.1 - a.1| + |b.2 - a.2|)
     (fun a b => add_nonneg (abs_nonneg _) (abs_nonneg _))
     ⟨[[(0, 0), (0, 1), (1, 1), (1, 0), (0, 0)]], 0⟩
     [(0, 0), (0, 1), (1, 1), (1, 0), (0, 0)] 0⟩

/-- C8: buildRowPolygon fails with the offset-failure error exactly when
either of the two offset computations yields no result, and otherwise
returns a polygon (it raises nothing else). -/
theorem claim8_offset_failure (cl : Polyline K) (lw rw : K) :
    (buildRowPolygon cl lw rw = Except.error "Failed to create offset lines" ↔
      offsetLine (path0 cl) lw = none ∨ offsetLine (path0 cl) (-rw) = none) ∧
    ((∃ p, buildRowPolygon cl lw rw = Except.ok p) ∨
      buildRowPolygon cl lw rw = Except.error "Failed to create offset lines") := by
  cases o1 : offsetLine (path0 cl) lw <;> cases o2 : offsetLine (path0 cl) (-rw) <;>
    simp [buildRowPolygon, o1, o2]

/-- Truncation toward zero of a real number, the rounding used by the
JavaScript remainder operator. -/
noncomputable def rTrunc (t : ℝ) : ℤ := if 0 ≤ t then ⌊t⌋ else ⌈t⌉

/-- The JavaScript remainder a % b (sign follows the dividend via
truncated division); the code applies it only to positive dividends. -/
noncomputable def jsMod (a b : ℝ) : ℝ := a - b * (rTrunc (a / b) : ℝ)

/-- The two-argument arctangent as computed by Math.atan2(y, x): the angle
of the point (x, y) in (-pi, pi], with atan2(0, 0) = 0 (signed zeros of
floating point are not modelled). -/
noncomputable def jsAtan2 (y x : ℝ) : ℝ :=
  if 0 < x then Real.arctan (y / x)
  else if x < 0 ∧ 0 ≤ y then Real.arctan (y / x) + Real.pi
  else if x < 0 ∧ y < 0 then Real.arctan (y / x) - Real.pi
  else if x = 0 ∧ 0 < y then Real.pi / 2
  else if x = 0 ∧ y < 0 then -(Real.pi / 2)
  else 0

/-- Embeds the bearing computation of computeVertexAnalytics (widget.tsx
line 679 and lines 697, 701): atan2(dx, dy) converted to degrees and pushed
into the range 0 to 360 by adding 360 and taking the remainder. -/
noncomputable def bearingDeg (dx dy : ℝ) : ℝ :=
  jsMod (jsAtan2 dx dy * 180 / Real.pi + 360) 360

/-- Bearing of travel from point a to point b (next minus current deltas). -/
noncomputable def segBearing (a b : ℝ × ℝ) : ℝ := bearingDeg (b.1 - a.1) (b.2 - a.2)

/-- Embeds the deflection normalization of computeVertexAnalytics
(widget.tsx lines 703-705): outgoing minus incoming bearing, minus 360 if
above 180, plus 360 if below -180.  A raw difference of exactly -180 is
kept (the second branch requires strictly below -180). -/
noncomputable def deflectionOf (b1 b2 : ℝ) : ℝ :=
  let d0 := b2 - b1
  let d1 := if 180 < d0 then d0 - 360 else d0
  if d1 < -180 then d1 + 360 else d1

/-- Embeds decimalToDMS (widget.tsx lines 739-745): floor-truncated
degrees, minutes and seconds joined into a degree-minute-second string.
The separator after the degrees is taken byte-for-byte from the source
template literal on line 744, which contains the two characters U+00C2
U+00B0 (a double-encoded degree sign, rendered as a stray circumflex-A
before the degree sign) rather than the plain degree sign the rest of the
file uses (for example the cleanly encoded squared sign on line 530). -/
noncomputable def decimalToDMS (decimal : ℝ) : String :=
  let degrees : ℤ := ⌊decimal⌋
  let minutesDecimal : ℝ := (decimal - (degrees : ℝ)) * 60
  let minutes : ℤ := ⌊minutesDecimal⌋
  let seconds : ℤ := ⌊(minutesDecimal - (minutes : ℝ)) * 60⌋
  toString degrees ++ "\u00C2\u00B0 " ++ toString minutes ++ "\x27 " ++
    toString seconds ++ "\""

/-- One row of the vertex analytics table, mirroring the VertexInfo
interface of widget.tsx lines 609-619. -/
structure VertexInfo where
  index : Nat
  x : ℝ
  y : ℝ
  bearing : ℝ
  bearingDMS : String
  bendAngle : ℝ
  bendDirection : String
  segmentLength : ℝ
  distanceFromStart : ℝ

/-- Fallback record used for out-of-range list reads in statements. -/
noncomputable def dummyVertex : VertexInfo :=
  ⟨0, 0, 0, 0, "", 0, "N/A", 0, 0⟩

/-- Embeds the bend angle and direction block of computeVertexAnalytics
(widget.tsx lines 690-718): when both neighbours exist the deflection of
the two adjacent bearings is classified (above 1 degree in absolute value:
Left for positive, Right for negative; otherwise Straight); with a missing
neighbour the first index is labelled Start, the last (no next vertex)
End, and the initial N/A survives in no reachable case.  Returns the pair
(bendAngle, bendDirection). -/
noncomputable def bendPair (i : Nat) (prev : Option (ℝ × ℝ)) (current : ℝ × ℝ)
    (next : Option (ℝ × ℝ)) : ℝ × String :=
  match prev, next with
  | some pv, some nx =>
      let d := deflectionOf (segBearing pv current) (segBearing current nx)
      (|d|, if 1 < |d| then (if 0 < d then "Left" else "Right") else "Straight")
  | _, _ =>
      (0, if i = 0 then "Start"
        else match next with
          | none => "End"
          | some _ => "N/A")

/-- Loop body of computeVertexAnalytics (widget.tsx lines 667-731) as a
structural recursion: i is the current index, prev the previous point,
cum the cumulative distance accumulated so far, and the list holds the
current point followed by the rest of the path.  The host geodesic segment
length (geometryEngine.geodesicLength on a two-point segment, not
repository code) is the supplied dist capability. -/
noncomputable def vaGo (dist : (ℝ × ℝ) → (ℝ × ℝ) → ℝ) :
    Nat → Option (ℝ × ℝ) → ℝ → List (ℝ × ℝ) → List VertexInfo
  | _, _, _, [] => []
  | i, prev, cum, current :: rest =>
      let next : Option (ℝ × ℝ) := rest.head?
      let bearing : ℝ := match next with
        | some nx => segBearing current nx
        | none => 0
      let segmentLength : ℝ := match next with
        | some nx => dist current nx
        | none => 0
      let cum2 : ℝ := cum + segmentLength
      let bend := bendPair i prev current next
      { index := i, x := current.1, y := current.2, bearing := bearing,
        bearingDMS := decimalToDMS bearing, bendAngle := bend.1,
        bendDirection := bend.2, segmentLength := segmentLength,
        distanceFromStart := if i = 0 then 0 else cum2 - segmentLength } ::
        vaGo dist (i + 1) (some current) cum2 rest

/-- Embeds computeVertexAnalytics (widget.tsx lines 657-734): reads
paths[0], returns the empty list for a missing path or fewer than two
points, and otherwise walks the path accumulating the records. -/
noncomputable def computeVertexAnalytics (dist : (ℝ × ℝ) → (ℝ × ℝ) → ℝ)
    (polyline : Polyline ℝ) : List VertexInfo :=
  let path := path0 polyline
  if path.length < 2 then [] else vaGo dist 0 none 0 path

/-- Sum of the first j segment lengths of a path under dist. -/
noncomputable def preSum (dist : (ℝ × ℝ) → (ℝ × ℝ) → ℝ) (path : List (ℝ × ℝ))
    (j : Nat) : ℝ :=
  ∑ k in Finset.range j, dist (path.getD k (0, 0)) (path.getD (k + 1) (0, 0))

/-- Closed form of the record vaGo produces at offset j, written directly
in terms of the path and the entry state. -/
noncomputable def recAt (dist : (ℝ × ℝ) → (ℝ × ℝ) → ℝ) (i0 : Nat)
    (prev0 : Option (ℝ × ℝ)) (cum0 : ℝ) (path : List (ℝ × ℝ)) (j : Nat) :
    VertexInfo :=
  let current := path.getD j (0, 0)
  let prev : Option (ℝ × ℝ) :=
    if j = 0 then prev0 else some (path.getD (j - 1) (0, 0))
  let next : Option (ℝ × ℝ) := path.get? (j + 1)
  let bearing : ℝ := match next with
    | some nx => segBearing current nx
    | none => 0
  let segmentLength : ℝ := match next with
    | some nx => dist current nx
    | none => 0
  let bend := bendPair (i0 + j) prev current next
  { index := i0 + j, x := current.1, y := current.2, bearing := bearing,
    bearingDMS := decimalToDMS bearing, bendAngle := bend.1,
    bendDirection := bend.2, segmentLength := segmentLength,
    distanceFromStart := if i0 + j = 0 then 0 else cum0 + preSum dist path j }

lemma jsAtan2_bounds (y x : ℝ) :
    -Real.pi < jsAtan2 y x ∧ jsAtan2 y x ≤ Real.pi := by
  have hpi := Real.pi_pos
  have hub := Real.arctan_lt_pi_div_two (y / x)
  have hlb := Real.neg_pi_div_two_lt_arctan (y / x)
  unfold jsAtan2
  split_ifs with h1 h2 h3 h4 h5
  · constructor <;> linarith
  · have hyx : y / x ≤ 0 := div_nonpos_of_nonneg_of_nonpos h2.2 h2.1.le
    have harc : Real.arctan (y / x) ≤ 0 := by
      have := Real.arctan_strictMono.monotone hyx
      simpa [Real.arctan_zero] using this
    constructor <;> linarith
  · have hyx : 0 < y / x := div_pos_of_neg_of_neg h3.2 h3.1
    have harc : 0 < Real.arctan (y / x) := by
      have := Real.arctan_strictMono hyx
      simpa [Real.arctan_zero] using this
    constructor <;> linarith
  · constructor <;> linarith
  · constructor <;> linarith
  · constructor <;> linarith

lemma rTrunc_of_nonneg {t : ℝ} (h : 0 ≤ t) : rTrunc t = ⌊t⌋ := by
  unfold rTrunc
  exact if_pos h

lemma jsMod_360_bounds {a : ℝ} (ha : 0 ≤ a) :
    0 ≤ jsMod a 360 ∧ jsMod a 360 < 360 := by
  have hdiv : (0 : ℝ) ≤ a / 360 := by positivity
  have hkey : jsMod a 360 = 360 * Int.fract (a / 360) := by
    unfold jsMod
    rw [rTrunc_of_nonneg hdiv, Int.fract]
    have h360 : (360 : ℝ) ≠ 0 := by norm_num
    field_simp
    try ring
  rw [hkey]
  constructor
  · have := Int.fract_nonneg (a / 360)
    positivity
  · have := Int.fract_lt_one (a / 360)
    linarith

lemma bearingDeg_bounds (dx dy : ℝ) :
    0 ≤ bearingDeg dx dy ∧ bearingDeg dx dy < 360 := by
  have hpi := Real.pi_pos
  have hb := jsAtan2_bounds dx dy
  have hscale : -180 < jsAtan2 dx dy * 180 / Real.pi := by
    rw [mul_div_assoc]
    have hpos : (0 : ℝ) < 180 / Real.pi := by positivity
    have := mul_lt_mul_of_pos_right hb.1 hpos
    have hval : -Real.pi * (180 / Real.pi) = -180 := by
      field_simp
      ring
    linarith [hval ▸ this]
  have ha : (0 : ℝ) ≤ jsAtan2 dx dy * 180 / Real.pi + 360 := by linarith
  exact jsMod_360_bounds ha

lemma deflectionOf_bounds {b1 b2 : ℝ} (h1 : 0 ≤ b1) (h2 : b1 < 360)
    (h3 : 0 ≤ b2) (h4 : b2 < 360) :
    -180 ≤ deflectionOf b1 b2 ∧ deflectionOf b1 b2 ≤ 180 := by
  unfold deflectionOf
  dsimp only
  split_ifs <;> constructor <;> linarith

lemma vaGo_eq_map (dist : (ℝ × ℝ) → (ℝ × ℝ) → ℝ) :
    ∀ (path : List (ℝ × ℝ)) (i0 : Nat) (prev0 : Option (ℝ × ℝ)) (cum0 : ℝ),
      vaGo dist i0 prev0 cum0 path =
        (List.range path.length).map (recAt dist i0 prev0 cum0 path) := by
  intro path
  induction path with
  | nil => intro i0 prev0 cum0; simp [vaGo]
  | cons c rest ih =>
      intro i0 prev0 cum0
      rw [List.length_cons, List.range_succ_eq_map, List.map_cons, List.map_map]
      simp only [vaGo]
      rw [ih]
      congr 1
      · unfold recAt
        simp only [List.getD_cons_zero, Nat.add_zero, if_pos rfl,
          List.get?_cons_succ, List.get?_zero]
        have hsum : preSum dist (c :: rest) 0 = 0 := by
          simp [preSum]
        rw [hsum]
        cases i0 with
        | zero => simp
        | succ m => simp
      · apply List.map_congr_left
        intro j hj
        rw [List.mem_range] at hj
        have hne : rest ≠ [] := List.ne_nil_of_length_pos (by omega)
        obtain ⟨b, rest2, rfl⟩ := List.exists_cons_of_ne_nil hne
        unfold recAt
        simp only [Function.comp, Nat.succ_eq_add_one, List.getD_cons_succ,
          List.get?_cons_succ, List.head?_cons]
        have hprev : (if j + 1 = 0 then prev0
            else some ((c :: b :: rest2).getD (j + 1 - 1) (0, 0))) =
            (if j = 0 then some c else some ((b :: rest2).getD (j - 1) (0, 0))) := by
          cases j with
          | zero => simp
          | succ m => simp
        rw [hprev]
        have hidx : i0 + (j + 1) = i0 + 1 + j := by omega
        have hdf : (i0 + (j + 1) = 0) = (i0 + 1 + j = 0) := by
          simp [hidx]
        have hsum : preSum dist (c :: b :: rest2) (j + 1) =
            dist c b + preSum dist (b :: rest2) j := by
          unfold preSum
          rw [Finset.sum_range_succ']
          simp only [List.getD_cons_succ, List.getD_cons_zero]
          ring
        rw [hidx, hsum]
        rw [add_assoc cum0 (dist c b) (preSum dist (b :: rest2) j)]

lemma computeVertexAnalytics_eq (dist : (ℝ × ℝ) → (ℝ × ℝ) → ℝ)
    (pl : Polyline ℝ) (h : ¬ (path0 pl).length < 2) :
    computeVertexAnalytics dist pl =
      (List.range (path0 pl).length).map (recAt dist 0 none 0 (path0 pl)) := by
  unfold computeVertexAnalytics
  simp only [if_neg h]
  exact vaGo_eq_map dist (path0 pl) 0 none 0

lemma computeVertexAnalytics_getD (dist : (ℝ × ℝ) → (ℝ × ℝ) → ℝ)
    (pl : Polyline ℝ) (j : Nat) (hj : j < (path0 pl).length)
    (h2 : 2 ≤ (path0 pl).length) :
    (computeVertexAnalytics dist pl).getD j dummyVertex =
      recAt dist 0 none 0 (path0 pl) j := by
  rw [computeVertexAnalytics_eq dist pl (by omega), List.getD_eq_getElem?_getD,
    List.getElem?_map, List.getElem?_range hj]
  rfl

/-- C9: a centerline whose first path is missing or has fewer than two
points yields the empty record list (the function is total, so no error is
raised). -/
theorem claim9_short_path_empty (dist : (ℝ × ℝ) → (ℝ × ℝ) → ℝ)
    (pl : Polyline ℝ) (h : (path0 pl).length < 2) :
    computeVertexAnalytics dist pl = [] := by
  unfold computeVertexAnalytics
  simp only [if_pos h]

theorem claim9_short_path_empty_witness :
    ((path0 (⟨[], 0⟩ : Polyline ℝ)).length < 2) ∧
    computeVertexAnalytics (fun _ _ => 0) ⟨[], 0⟩ = [] :=
  ⟨by decide, claim9_short_path_empty (fun _ _ => 0) ⟨[], 0⟩ (by decide)⟩

/-- C10: on a two-vertex centerline the first record is labelled Start
(the first-index branch is tested before the last-index branch) and the
second End, both with bend angle 0. -/
theorem claim10_two_vertex_labels (dist : (ℝ × ℝ) → (ℝ × ℝ) → ℝ)
    (a b : ℝ × ℝ) (s : Nat) :
    (computeVertexAnalytics dist ⟨[[a, b]], s⟩).map VertexInfo.bendDirection =
      ["Start", "End"] ∧
    (computeVertexAnalytics dist ⟨[[a, b]], s⟩).map VertexInfo.bendAngle =
      [0, 0] := by
  constructor <;>
    norm_num [computeVertexAnalytics, path0, vaGo, bendPair]

/-- C7: every record's bearing lies in the interval from 0 inclusive to
360 exclusive (the last vertex's bearing is the literal 0, every other
bearing is the normalized atan2 result). -/
theorem claim7_bearing_normalized (dist : (ℝ × ℝ) → (ℝ × ℝ) → ℝ)
    (pl : Polyline ℝ) (v : VertexInfo)
    (hv : v ∈ computeVertexAnalytics dist pl) :
    0 ≤ v.bearing ∧ v.bearing < 360 := by
  by_cases h : (path0 pl).length < 2
  · rw [claim9_short_path_empty dist pl h] at hv
    exact absurd hv (List.not_mem_nil v)
  · rw [computeVertexAnalytics_eq dist pl h] at hv
    obtain ⟨j, hjmem, rfl⟩ := List.mem_map.mp hv
    unfold recAt
    dsimp only
    cases hnext : (path0 pl).get? (j + 1) with
    | none => simp [hnext]
    | some nx =>
        simp only [hnext]
        exact bearingDeg_bounds _ _

/-- Two-point polyline used to instantiate hypotheses of the analytics
theorems at a concrete input. -/
noncomputable def plTwo : Polyline ℝ := ⟨[[(0, 0), (0, 100)]], 0⟩

/-- The record at index 0 that the analytics produce for plTwo under the
everywhere-zero distance capability. -/
noncomputable def vTwo : VertexInfo :=
  recAt (fun _ _ => 0) 0 none 0 [(0, 0), (0, 100)] 0

theorem claim7_bearing_normalized_witness :
    vTwo ∈ computeVertexAnalytics (fun _ _ => 0) plTwo ∧
    (0 ≤ vTwo.bearing ∧ vTwo.bearing < 360) := by
  have hlen : ¬ (path0 plTwo).length < 2 := by norm_num [path0, plTwo]
  have hm : vTwo ∈ computeVertexAnalytics (fun _ _ => 0) plTwo := by
    rw [computeVertexAnalytics_eq (fun _ _ => 0) plTwo hlen]
    show vTwo ∈ (List.range 2).map (recAt (fun _ _ => 0) 0 none 0 [(0, 0), (0, 100)])
    rw [show List.range 2 = [0, 1] from rfl, List.map_cons, List.map_cons, List.map_nil]
    exact List.mem_cons_self _ _
  exact ⟨hm, claim7_bearing_normalized (fun _ _ => 0) plTwo vTwo hm⟩

/-- C5: distanceFromStart is 0 at index 0, equals the sum of the segment
lengths strictly before the vertex (the cumulative total up to and
including the vertex's own outgoing segment, minus that segment - that is,
the distance to reach the vertex), and is non-decreasing in the index
whenever the distance capability is nonnegative. -/
theorem claim5_distance_monotone (dist : (ℝ × ℝ) → (ℝ × ℝ) → ℝ)
    (pl : Polyline ℝ) (hd : ∀ a b, 0 ≤ dist a b)
    (h2 : 2 ≤ (path0 pl).length) :
    ((computeVertexAnalytics dist pl).getD 0 dummyVertex).distanceFromStart = 0 ∧
    (∀ j, j < (path0 pl).length →
      ((computeVertexAnalytics dist pl).getD j dummyVertex).distanceFromStart =
        preSum dist (path0 pl) j) ∧
    (∀ j1 j2, j1 ≤ j2 → j2 < (path0 pl).length →
      ((computeVertexAnalytics dist pl).getD j1 dummyVertex).distanceFromStart ≤
        ((computeVertexAnalytics dist pl).getD j2 dummyVertex).distanceFromStart) := by
  have hmid : ∀ j, j < (path0 pl).length →
      ((computeVertexAnalytics dist pl).getD j dummyVertex).distanceFromStart =
        preSum dist (path0 pl) j := by
    intro j hj
    rw [computeVertexAnalytics_getD dist pl j hj h2]
    unfold recAt
    dsimp only
    cases j with
    | zero =>
        rw [if_pos rfl]
        simp [preSum]
    | succ m =>
        rw [if_neg (by omega)]
        ring
  have hmono : ∀ j1 j2, j1 ≤ j2 →
      preSum dist (path0 pl) j1 ≤ preSum dist (path0 pl) j2 := by
    intro j1 j2 h12
    unfold preSum
    exact Finset.sum_le_sum_of_subset_of_nonneg (Finset.range_subset.mpr h12)
      (fun k _ _ => hd _ _)
  refine ⟨?_, hmid, ?_⟩
  · rw [hmid 0 (by omega)]
    simp [preSum]
  · intro j1 j2 h12 hj2
    rw [hmid j1 (by omega), hmid j2 hj2]
    exact hmono j1 j2 h12

/-- Taxicab distance on the plane, a nonnegative stand-in for the geodesic
distance capability in witnesses. -/
noncomputable def distTaxi (a b : ℝ × ℝ) : ℝ := |b.1 - a.1| + |b.2 - a.2|

theorem claim5_distance_monotone_witness :
    (∀ a b : ℝ × ℝ, 0 ≤ distTaxi a b) ∧ 2 ≤ (path0 plTwo).length ∧
    (((computeVertexAnalytics distTaxi plTwo).getD 0 dummyVertex).distanceFromStart = 0 ∧
    (∀ j, j < (path0 plTwo).length →
      ((computeVertexAnalytics distTaxi plTwo).getD j dummyVertex).distanceFromStart =
        preSum distTaxi (path0 plTwo) j) ∧
    (∀ j1 j2, j1 ≤ j2 → j2 < (path0 plTwo).length →
      ((computeVertexAnalytics distTaxi plTwo).getD j1 dummyVertex).distanceFromStart ≤
        ((computeVertexAnalytics distTaxi plTwo).getD j2 dummyVertex).distanceFromStart)) := by
  have hd : ∀ a b : ℝ × ℝ, 0 ≤ distTaxi a b := by
    intro a b
    exact add_nonneg (abs_nonneg _) (abs_nonneg _)
  have h2 : 2 ≤ (path0 plTwo).length := by norm_num [path0, plTwo]
  exact ⟨hd, h2, claim5_distance_monotone distTaxi plTwo hd h2⟩

lemma jsMod_360_of_floor {a : ℝ} {z : ℤ} (ha : 0 ≤ a) (hz : ⌊a / 360⌋ = z) :
    jsMod a 360 = a - 360 * (z : ℝ) := by
  unfold jsMod
  rw [rTrunc_of_nonneg (by positivity), hz]

lemma bearingDeg_north : bearingDeg 0 100 = 0 := by
  have hatan : jsAtan2 0 100 = 0 := by
    unfold jsAtan2
    rw [if_pos (by norm_num : (0 : ℝ) < 100)]
    norm_num
  unfold bearingDeg
  rw [hatan]
  have hzero : (0 : ℝ) * 180 / Real.pi + 360 = 360 := by
    simp
  rw [hzero, jsMod_360_of_floor (by norm_num)
    (by rw [Int.floor_eq_iff] <;> norm_num : ⌊(360 : ℝ) / 360⌋ = 1)]
  norm_num

lemma bearingDeg_east : bearingDeg 100 0 = 90 := by
  have hatan : jsAtan2 100 0 = Real.pi / 2 := by
    unfold jsAtan2
    rw [if_neg (by norm_num), if_neg (by norm_num), if_neg (by norm_num),
      if_pos (by norm_num)]
  unfold bearingDeg
  rw [hatan]
  have h90 : Real.pi / 2 * 180 / Real.pi + 360 = 450 := by
    have hpi := Real.pi_ne_zero
    field_simp
    ring
  rw [h90, jsMod_360_of_floor (by norm_num)
    (by rw [Int.floor_eq_iff] <;> norm_num : ⌊(450 : ℝ) / 360⌋ = 1)]
  norm_num

lemma bearingDeg_south : bearingDeg 0 (-100) = 180 := by
  have hatan : jsAtan2 0 (-100) = Real.pi := by
    unfold jsAtan2
    rw [if_neg (by norm_num), if_pos (by norm_num : (-100 : ℝ) < 0 ∧ (0 : ℝ) ≤ 0)]
    norm_num
  unfold bearingDeg
  rw [hatan]
  have h180 : Real.pi * 180 / Real.pi + 360 = 540 := by
    have hpi := Real.pi_ne_zero
    field_simp
    ring
  rw [h180, jsMod_360_of_floor (by norm_num)
    (by rw [Int.floor_eq_iff] <;> norm_num : ⌊(540 : ℝ) / 360⌋ = 1)]
  norm_num

/-- The right-angle scenario centerline: north 100 units, then east 100. -/
noncomputable def plRightAngle : Polyline ℝ := ⟨[[(0, 0), (0, 100), (100, 100)]], 0⟩

lemma plRightAngle_bend (dist : (ℝ × ℝ) → (ℝ × ℝ) → ℝ) :
    ((computeVertexAnalytics dist plRightAngle).getD 1 dummyVertex).bendDirection =
      "Left" ∧
    ((computeVertexAnalytics dist plRightAngle).getD 1 dummyVertex).bendAngle = 90 := by
  have hlen : (path0 plRightAngle).length = 3 := by norm_num [path0, plRightAngle]
  rw [computeVertexAnalytics_getD dist plRightAngle 1 (by omega) (by omega)]
  have hpath : path0 plRightAngle = [(0, 0), (0, 100), (100, 100)] := rfl
  rw [hpath]
  unfold recAt
  have hbp : bendPair 1 (some (0 : ℝ × ℝ))
      ((0 : ℝ), (100 : ℝ)) (some ((100 : ℝ), (100 : ℝ))) = (90, "Left") := by
    unfold bendPair
    have hsb1 : segBearing (0 : ℝ × ℝ) (0, 100) = 0 := by
      unfold segBearing
      norm_num [bearingDeg_north]
    have hsb2 : segBearing ((0 : ℝ), (100 : ℝ)) (100, 100) = 90 := by
      unfold segBearing
      norm_num [bearingDeg_east]
    dsimp only
    rw [hsb1, hsb2]
    have hd : deflectionOf 0 90 = 90 := by
      unfold deflectionOf
      norm_num
    rw [hd]
    norm_num
  dsimp only
  norm_num
  rw [hbp]
  norm_num

/-- C1 counterexample: on the centerline [(0,0),(0,100),(100,100)] the code
labels the middle vertex Left, not Right as the claim states (the turn is
clockwise, yet the code maps positive deflection to Left). -/
theorem claim1_cex :
    ((computeVertexAnalytics (fun _ _ => 0) plRightAngle).getD 1
        dummyVertex).bendDirection ≠ "Right" := by
  rw [(plRightAngle_bend (fun _ _ => 0)).1]
  decide

/-- C1 amended: for the centerline [(0,0),(0,100),(100,100)] the middle
vertex gets bend direction Left (the label the code assigns to a positive,
clockwise deflection) and bend angle 90, for any distance capability. -/
theorem claim1_right_angle (dist : (ℝ × ℝ) → (ℝ × ℝ) → ℝ) :
    ((computeVertexAnalytics dist plRightAngle).getD 1 dummyVertex).bendDirection =
      "Left" ∧
    ((computeVertexAnalytics dist plRightAngle).getD 1 dummyVertex).bendAngle = 90 :=
  plRightAngle_bend dist

/-- Modelled from the spec (wording of the bend-direction rule): reduction
of a bearing difference into the half-open interval from -180 exclusive to
180 inclusive, for comparison against the code's normalization. -/
noncomputable def specDeflection (b1 b2 : ℝ) : ℝ :=
  let d0 := b2 - b1
  if d0 ≤ -180 then d0 + 360 else if 180 < d0 then d0 - 360 else d0

/-- The U-turn centerline: south 100 units, then back north to the start. -/
noncomputable def plUTurn : Polyline ℝ := ⟨[[(0, 0), (0, -100), (0, 0)]], 0⟩

lemma plUTurn_bend (dist : (ℝ × ℝ) → (ℝ × ℝ) → ℝ) :
    ((computeVertexAnalytics dist plUTurn).getD 1 dummyVertex).bendDirection =
      "Right" := by
  have hlen : (path0 plUTurn).length = 3 := by norm_num [path0, plUTurn]
  rw [computeVertexAnalytics_getD dist plUTurn 1 (by omega) (by omega)]
  have hpath : path0 plUTurn = [(0, 0), (0, -100), (0, 0)] := rfl
  rw [hpath]
  unfold recAt
  have hbp : bendPair 1 (some (0 : ℝ × ℝ))
      ((0 : ℝ), (-100 : ℝ)) (some (0 : ℝ × ℝ)) = (180, "Right") := by
    unfold bendPair
    have hsb1 : segBearing (0 : ℝ × ℝ) (0, -100) = 180 := by
      unfold segBearing
      norm_num [bearingDeg_south]
    have hsb2 : segBearing ((0 : ℝ), (-100 : ℝ)) (0 : ℝ × ℝ) = 0 := by
      unfold segBearing
      norm_num [bearingDeg_north]
    dsimp only
    rw [hsb1, hsb2]
    have hd : deflectionOf 180 0 = -180 := by
      unfold deflectionOf
      norm_num
    rw [hd]
    norm_num
  dsimp only
  norm_num
  rw [hbp]

/-- C6 counterexample: at the middle vertex of the U-turn centerline
[(0,0),(0,-100),(0,0)] the spec's deflection, normalized into the interval
from -180 exclusive to 180 inclusive, is 180 and so above 1, which by the
claim forces direction Left; the code keeps the raw difference -180 and
labels the vertex Right. -/
theorem claim6_cex :
    1 < specDeflection (segBearing (0 : ℝ × ℝ) ((0 : ℝ), (-100 : ℝ)))
        (segBearing ((0 : ℝ), (-100 : ℝ)) (0 : ℝ × ℝ)) ∧
    ((computeVertexAnalytics (fun _ _ => 0) plUTurn).getD 1
        dummyVertex).bendDirection ≠ "Left" := by
  constructor
  · have hsb1 : segBearing (0 : ℝ × ℝ) (0, -100) = 180 := by
      unfold segBearing
      norm_num [bearingDeg_south]
    have hsb2 : segBearing ((0 : ℝ), (-100 : ℝ)) (0 : ℝ × ℝ) = 0 := by
      unfold segBearing
      norm_num [bearingDeg_north]
    rw [hsb1, hsb2]
    unfold specDeflection
    norm_num
  · rw [plUTurn_bend (fun _ _ => 0)]
    decide

/-- The properties claim C6 asserts of an interior vertex, stated with the
code's deflection normalization (interval from -180 to 180, both
inclusive): the record's bend angle is the absolute deflection, lies
between 0 and 180, and the direction is Left above 1, Right below -1 and
Straight within 1 in absolute value. -/
def interiorClaim (dist : (ℝ × ℝ) → (ℝ × ℝ) → ℝ) (pl : Polyline ℝ)
    (j : Nat) : Prop :=
  let path := path0 pl
  let d := deflectionOf
    (segBearing (path.getD (j - 1) (0, 0)) (path.getD j (0, 0)))
    (segBearing (path.getD j (0, 0)) (path.getD (j + 1) (0, 0)))
  let v := (computeVertexAnalytics dist pl).getD j dummyVertex
  v.bendAngle = |d| ∧ 0 ≤ v.bendAngle ∧ v.bendAngle ≤ 180 ∧
  -180 ≤ d ∧ d ≤ 180 ∧
  (1 < d → v.bendDirection = "Left") ∧
  (d < -1 → v.bendDirection = "Right") ∧
  (|d| ≤ 1 → v.bendDirection = "Straight")

lemma segBearing_bounds (a b : ℝ × ℝ) :
    0 ≤ segBearing a b ∧ segBearing a b < 360 := by
  unfold segBearing
  exact bearingDeg_bounds _ _

/-- C6 amended: at every interior vertex the bend angle and direction are
classified from the deflection reduced by the code into the closed
interval [-180, 180] (a raw difference of exactly -180 stays -180 rather
than becoming 180), with angle the absolute deflection in [0, 180],
direction Left above 1, Right below -1, Straight otherwise. -/
theorem claim6_bend_classification (dist : (ℝ × ℝ) → (ℝ × ℝ) → ℝ)
    (pl : Polyline ℝ) (j : Nat) (hj1 : 1 ≤ j)
    (hj2 : j + 1 < (path0 pl).length) :
    interiorClaim dist pl j := by
  have h2 : 2 ≤ (path0 pl).length := by omega
  unfold interiorClaim
  rw [computeVertexAnalytics_getD dist pl j (by omega) h2]
  unfold recAt
  dsimp only
  have hprev : (if j = 0 then (none : Option (ℝ × ℝ))
      else some ((path0 pl).getD (j - 1) (0, 0))) =
      some ((path0 pl).getD (j - 1) (0, 0)) := by
    rw [if_neg (by omega)]
  have hnext : (path0 pl).get? (j + 1) =
      some ((path0 pl).getD (j + 1) (0, 0)) := by
    rw [List.get?_eq_getElem?, List.getElem?_eq_getElem hj2,
      List.getD_eq_getElem?_getD, List.getElem?_eq_getElem hj2]
    rfl
  rw [hprev, hnext]
  unfold bendPair
  dsimp only
  set b1 := segBearing ((path0 pl).getD (j - 1) (0, 0))
    ((path0 pl).getD j (0, 0)) with hb1
  set b2 := segBearing ((path0 pl).getD j (0, 0))
    ((path0 pl).getD (j + 1) (0, 0)) with hb2
  set d := deflectionOf b1 b2 with hd
  have hrange : -180 ≤ d ∧ d ≤ 180 := by
    rw [hd]
    exact deflectionOf_bounds (segBearing_bounds _ _).1 (segBearing_bounds _ _).2
      (segBearing_bounds _ _).1 (segBearing_bounds _ _).2
  refine ⟨rfl, abs_nonneg d, ?_, hrange.1, hrange.2, ?_, ?_, ?_⟩
  · exact abs_le.mpr hrange
  · intro hgt
    rw [if_pos (lt_of_lt_of_le hgt (le_abs_self d)), if_pos (by linarith)]
  · intro hlt
    have habs : 1 < |d| := lt_of_lt_of_le (by linarith) (neg_le_abs d)
    rw [if_pos habs, if_neg (by linarith : ¬ 0 < d)]
  · intro hle
    rw [if_neg (not_lt.mpr hle)]

theorem claim6_bend_classification_witness :
    (1 ≤ 1 ∧ 1 + 1 < (path0 plUTurn).length) ∧
    interiorClaim (fun _ _ => 0) plUTurn 1 :=
  ⟨⟨le_refl 1, by norm_num [path0, plUTurn]⟩,
   claim6_bend_classification (fun _ _ => 0) plUTurn 1 (le_refl 1)
     (by norm_num [path0, plUTurn])⟩

/-- C3: decimalToDMS floors the degrees, minutes and seconds (a value whose
seconds part is 59.5 formats with 59 seconds, where rounding would give 60),
but because the source template literal carries a double-encoded degree sign
(U+00C2 U+00B0), the bearing 45.5 formats to the string with the stray
circumflex-A before the degree sign, provably different from the plain
string the claim states. -/
theorem claim3_dms_mojibake :
    decimalToDMS 45.5 = "45\u00C2\u00B0 30\x27 0\"" ∧
    decimalToDMS 45.5 ≠ "45\u00B0 30\x27 0\"" ∧
    decimalToDMS (45 + 30 / 60 + 59.5 / 3600) = "45\u00C2\u00B0 30\x27 59\"" := by
  have h1 : decimalToDMS 45.5 = "45\u00C2\u00B0 30\x27 0\"" := by
    simp only [decimalToDMS]
    rw [show ⌊(45.5 : ℝ)⌋ = 45 from by norm_num]
    rw [show ((45.5 : ℝ) - ((45 : ℤ) : ℝ)) * 60 = 30 from by push_cast; norm_num]
    rw [show ⌊(30 : ℝ)⌋ = 30 from by norm_num]
    rw [show ((30 : ℝ) - ((30 : ℤ) : ℝ)) * 60 = 0 from by push_cast; norm_num]
    rw [show ⌊(0 : ℝ)⌋ = 0 from by norm_num]
    rfl
  refine ⟨h1, ?_, ?_⟩
  · rw [h1]
    decide
  · simp only [decimalToDMS]
    rw [show ⌊(45 + 30 / 60 + 59.5 / 3600 : ℝ)⌋ = 45 from by norm_num]
    rw [show ((45 + 30 / 60 + 59.5 / 3600 : ℝ) - ((45 : ℤ) : ℝ)) * 60 =
      30 + 59.5 / 60 from by push_cast; ring_nf]
    rw [show ⌊(30 + 59.5 / 60 : ℝ)⌋ = 30 from by norm_num]
    rw [show ((30 + 59.5 / 60 : ℝ) - ((30 : ℤ) : ℝ)) * 60 = 59.5 from by
      push_cast; ring_nf]
    rw [show ⌊(59.5 : ℝ)⌋ = 59 from by norm_num]
    rfl

end RowEngine
